import Mathlib

/-!
Verification of the filter-to-query layer of the `relayer` PostgreSQL storage
backend (`storage/postgresql/query.go`).

The embedding below translates the Go source. Go `[]T` fields that the code
compares against `nil` are modelled as `Option (List T)`; the `nostr.TagMap`
(a Go `map[string][]string`) is modelled as an association list carrying one
fixed iteration order, since Go fixes no iteration order for maps; machine
integers (`int`, `int64`, `nostr.Timestamp`) are modelled as `Int` (the values
reaching this layer are far from the 64-bit boundary and the code performs no
arithmetic on them beyond comparisons); `database/sql` is an external
collaborator and is modelled as an oracle passed to the executor functions.
-/

namespace Relayer

deriving instance DecidableEq for Except

/-- A value appended to the `params []any` slice of `queryEventsSql`: tag
values are strings, `since`/`until` and the limit are integers. -/
inductive Param where
  | pstr : String → Param
  | pint : Int → Param
deriving DecidableEq

/-- `nostr.Filter` as read by `queryEventsSql`: `IDs`, `Authors` and `Kinds`
distinguish the Go `nil` slice (absent, `none`) from a present slice; `Tags`
is the `nostr.TagMap` in one fixed iteration order; `Since`/`Until` are
optional timestamps; `Limit` is a plain `int` (absent encodes as `0`). -/
structure Filter where
  IDs : Option (List String) := none
  Authors : Option (List String) := none
  Kinds : Option (List Int) := none
  Tags : List (String × List String) := []
  Since : Option Int := none
  Until : Option Int := none
  Limit : Int := 0
deriving DecidableEq

/-- The limit fields of `PostgresBackend` consumed by `queryEventsSql`. -/
structure PostgresBackend where
  QueryLimit : Int
  QueryIDsLimit : Int
  QueryAuthorsLimit : Int
  QueryKindsLimit : Int
  QueryTagsLimit : Int
deriving DecidableEq

/-- Value of one hex digit as accepted by Go `encoding/hex` (`0-9`, `a-f`,
`A-F`), `none` on any other character. -/
def hexDigitVal (c : Char) : Option Nat :=
  if '0' ≤ c ∧ c ≤ '9' then some (c.toNat - 48)
  else if 'a' ≤ c ∧ c ≤ 'f' then some (c.toNat - 87)
  else if 'A' ≤ c ∧ c ≤ 'F' then some (c.toNat - 55)
  else none

/-- Go `hex.DecodeString` on the character list: bytes are decoded pairwise;
an invalid digit or an odd length is an error (`none`). -/
def hexDecodeChars : List Char → Option (List Nat)
  | [] => some []
  | [_] => none
  | hi :: lo :: rest =>
    match hexDigitVal hi, hexDigitVal lo, hexDecodeChars rest with
    | some h, some l, some bs => some ((h * 16 + l) :: bs)
    | _, _, _ => none

/-- Go `hex.DecodeString`. -/
def hexDecode (s : String) : Option (List Nat) :=
  hexDecodeChars s.data

/-- Go's lowercase digit table (`const hextable = "0123456789abcdef"` in
`encoding/hex`, also the digit characters of `strconv`). -/
def hexChars : List Char :=
  ("0123456789abcdef" : String).data

/-- The decimal digit characters. -/
def decChars : List Char :=
  ("0123456789" : String).data

/-- The lowercase digit character for `d < 16`, printed by Go's `%x` verb as
`hextable[d]` (the default is never reached on the values supplied). -/
def hexDigitChar (d : Nat) : Char :=
  hexChars.getD d 'f'

/-- Go `fmt.Sprintf("%x", bs)` for a byte slice: two lowercase hex digits per
byte, most significant nibble first. -/
def hexEncodeChars : List Nat → List Char
  | [] => []
  | b :: rest => hexDigitChar (b / 16) :: hexDigitChar (b % 16) :: hexEncodeChars rest

/-- Go `fmt.Sprintf("%x", bs)` as a string. -/
def hexEncode (bs : List Nat) : String :=
  String.mk (hexEncodeChars bs)

/-- Decimal digit characters of `n`, written with explicit fuel so that the
definition is structural and reduces by kernel computation. -/
def digitsAux : Nat → Nat → List Char
  | 0, _ => []
  | fuel + 1, n =>
    if n < 10 then [hexDigitChar n]
    else digitsAux fuel (n / 10) ++ [hexDigitChar (n % 10)]

/-- Decimal digit characters of a natural number (`n + 1` is always enough
fuel since the number of digits of `n` is at most `n + 1`). -/
def natToChars (n : Nat) : List Char := digitsAux (n + 1) n

/-- Go `strconv.Itoa`. -/
def itoa (i : Int) : String :=
  if i < 0 then String.mk ('-' :: natToChars (-i).toNat) else String.mk (natToChars i.toNat)

/-- Go `strings.Join`. -/
def joinSep (sep : String) : List String → String
  | [] => ""
  | [x] => x
  | x :: y :: rest => x ++ sep ++ joinSep sep (y :: rest)

/-- The per-entry validation of `ids`/`authors` values in `queryEventsSql`
(lines 80-83 and 103-106): `hex.DecodeString` must succeed and yield exactly
32 bytes, otherwise the entry is skipped. -/
def validHex32 (s : String) : Option (List Nat) :=
  match hexDecode s with
  | some parsed => if parsed.length = 32 then some parsed else none
  | none => none

/-- The `likeids` slice of `queryEventsSql` (lines 77-86): one
`id LIKE '<hex>%'` fragment per surviving entry, the validated bytes
re-encoded to lowercase hex by `%x` and embedded as a literal. -/
def likeids (ids : List String) : List String :=
  ids.filterMap fun id =>
    (validHex32 id).map fun parsed => "id LIKE '" ++ hexEncode parsed ++ "%'"

/-- The `likekeys` slice of `queryEventsSql` (lines 100-109). -/
def likekeys (keys : List String) : List String :=
  keys.filterMap fun key =>
    (validHex32 key).map fun parsed => "pubkey LIKE '" ++ hexEncode parsed ++ "%'"

/-- The `filter.IDs` block of `queryEventsSql` (lines 70-91): `none` is the
early `return "", nil, nil` (empty-result signal), `some none` means the
dimension is absent and adds no condition, `some (some c)` appends `c`. -/
def idsStep (b : PostgresBackend) (f : Filter) : Option (Option String) :=
  match f.IDs with
  | none => some none
  | some ids =>
    if (ids.length : Int) > b.QueryIDsLimit then none
    else if (likeids ids).length = 0 then none
    else some (some ("(" ++ joinSep " OR " (likeids ids) ++ ")"))

/-- The `filter.Authors` block of `queryEventsSql` (lines 93-114). -/
def authorsStep (b : PostgresBackend) (f : Filter) : Option (Option String) :=
  match f.Authors with
  | none => some none
  | some keys =>
    if (keys.length : Int) > b.QueryAuthorsLimit then none
    else if (likekeys keys).length = 0 then none
    else some (some ("(" ++ joinSep " OR " (likekeys keys) ++ ")"))

/-- The `filter.Kinds` block of `queryEventsSql` (lines 116-132). -/
def kindsStep (b : PostgresBackend) (f : Filter) : Option (Option String) :=
  match f.Kinds with
  | none => some none
  | some kinds =>
    if (kinds.length : Int) > b.QueryKindsLimit then none
    else if kinds.length = 0 then none
    else some (some ("kind IN (" ++ joinSep "," (kinds.map itoa) ++ ")"))

/-- The tag loop of `queryEventsSql` (lines 134-148): walk the tag map in
iteration order, bail out (`none`) on an empty value list, append the values
to `tagQuery`, bail out when the accumulated length exceeds the limit. -/
def flattenTags (limit : Int) : List (String × List String) → List String → Option (List String)
  | [], tagQuery => some tagQuery
  | (_, values) :: rest, tagQuery =>
    if values.length = 0 then none
    else if ((tagQuery ++ values).length : Int) > limit then none
    else flattenTags limit rest (tagQuery ++ values)

/-- All tag values of the filter flattened in iteration order (what the tag
loop accumulates when it does not bail out). -/
def flatValues : List (String × List String) → List String
  | [] => []
  | p :: rest => p.2 ++ flatValues rest

/-- The limit resolution of `queryEventsSql` (lines 177-181). -/
def resolveLimit (b : PostgresBackend) (f : Filter) : Int :=
  if f.Limit < 1 ∨ f.Limit > b.QueryLimit then b.QueryLimit else f.Limit

/-- Lines 63-181 of `queryEventsSql`: the shared condition and parameter
lists. `none` is any of the early `return "", nil, nil` paths (the
empty-result signal); otherwise the conditions are emitted in source order
(ids, authors, kinds, tag overlap, since, until, the `"true"` fallback) and
the parameters are the flattened tag values, since, until, and the resolved
limit, in that order. -/
def buildQuery (b : PostgresBackend) (f : Filter) : Option (List String × List Param) :=
  (idsStep b f).bind fun idCond =>
  (authorsStep b f).bind fun authorCond =>
  (kindsStep b f).bind fun kindCond =>
  (flattenTags b.QueryTagsLimit f.Tags []).bind fun tagQuery =>
  let conds0 := idCond.toList ++ authorCond.toList ++ kindCond.toList
  let conds1 := conds0 ++ (if tagQuery.length > 0 then
      ["tagvalues && ARRAY[" ++ joinSep "," (tagQuery.map fun _ => "?") ++ "]"] else [])
  let conds2 := conds1 ++ (match f.Since with | some _ => ["created_at >= ?"] | none => [])
  let conds3 := conds2 ++ (match f.Until with | some _ => ["created_at <= ?"] | none => [])
  let params : List Param := tagQuery.map Param.pstr
      ++ (match f.Since with | some s => [Param.pint s] | none => [])
      ++ (match f.Until with | some u => [Param.pint u] | none => [])
      ++ [Param.pint (resolveLimit b f)]
  some (if conds3.length = 0 then ["true"] else conds3, params)

/-- `sqlx.Rebind(sqlx.BindType("postgres"), _)`: a left-to-right scan that
replaces the k-th `?` with `$k`. -/
def rebindChars : List Char → Nat → List Char
  | [], _ => []
  | c :: cs, n =>
    if c = '?' then ('$' :: natToChars n) ++ rebindChars cs (n + 1)
    else c :: rebindChars cs n

/-- `sqlx.Rebind(sqlx.BindType("postgres"), s)`. -/
def rebind (s : String) : String := String.mk (rebindChars s.data 1)

/-- The rows-shape selection prefix (lines 191-193, the raw Go string with
its embedded newlines and indentation). -/
def rowsSelect : String :=
  "SELECT\n          id, pubkey, created_at, kind, tags, content, sig\n        FROM event WHERE "

/-- The count-shape selection prefix (lines 185-187). -/
def countSelect : String :=
  "SELECT\n          COUNT(*)\n        FROM event WHERE "

/-- The shared `ORDER BY`/`LIMIT` tail of both shapes (lines 189 and 195). -/
def orderLimitTail : String := " ORDER BY created_at DESC LIMIT ?"

/-- `queryEventsSql` (lines 62-199): the null-filter error, the empty-result
signal `("", nil, nil)` modelled as `Except.ok ("", [])`, or the compiled
query of the requested shape together with the bound parameters. -/
def queryEventsSql (b : PostgresBackend) (filter : Option Filter) (doCount : Bool) :
    Except String (String × List Param) :=
  match filter with
  | none => Except.error "filter cannot be null"
  | some f =>
    match buildQuery b f with
    | none => Except.ok ("", [])
    | some (conditions, params) =>
      if doCount then
        Except.ok (rebind (countSelect ++ joinSep " AND " conditions ++ orderLimitTail), params)
      else
        Except.ok (rebind (rowsSelect ++ joinSep " AND " conditions ++ orderLimitTail), params)

/-- `nostr.Event` as scanned by the rows loop of `QueryEvents`. -/
structure Event where
  id : String
  pubkey : String
  created_at : Int
  kind : Int
  tags : List (List String)
  content : String
  sig : String
deriving DecidableEq

/-- Outcome of `b.DB.Query`: a storage failure, or driver rows; a `none` row
is one whose `rows.Scan` fails. -/
inductive QueryResult where
  | fail : String → QueryResult
  | rows : List (Option Event) → QueryResult

/-- Outcome of `b.DB.QueryRow(...).Scan(&count)`: `sql.ErrNoRows`, another
failure, or a scanned count. -/
inductive RowScan where
  | noRows : RowScan
  | fail : String → RowScan
  | value : Int → RowScan

/-- The rows loop of `QueryEvents` (lines 33-43): events are delivered in
row order until exhaustion; a row whose scan fails ends the sequence at once,
silently. -/
def scanRows : List (Option Event) → List Event
  | [] => []
  | none :: _ => []
  | some e :: rest => e :: scanRows rest

/-- The error wrapping of lines 27 and 57 (Go's `%q` escaping of the query
text is not reproduced; no claim concerns the wrapped text's spelling). -/
def wrapQueryErr (query e : String) : String :=
  "failed to fetch events using query " ++ query ++ ": " ++ e

/-- `QueryEvents` (lines 15-47) over a storage oracle `db`: a compilation
error is returned as-is; otherwise `b.DB.Query(query, params...)` is issued
unconditionally — also when the compiled query is the empty-signal `""` — a
non-`ErrNoRows` failure is wrapped, and rows are streamed through `scanRows`.
The channel's unbuffered handoff is modelled as the delivered list. -/
def QueryEvents (b : PostgresBackend) (db : String → List Param → QueryResult)
    (filter : Option Filter) : Except String (List Event) :=
  match queryEventsSql b filter false with
  | Except.error e => Except.error e
  | Except.ok (query, params) =>
    match db query params with
    | QueryResult.fail e => Except.error (wrapQueryErr query e)
    | QueryResult.rows rs => Except.ok (scanRows rs)

/-- `CountEvents` (lines 49-60) over a storage oracle `db`: `sql.ErrNoRows`
leaves the count at its zero value, other failures are wrapped. -/
def CountEvents (b : PostgresBackend) (db : String → List Param → RowScan)
    (filter : Option Filter) : Except String Int :=
  match queryEventsSql b filter true with
  | Except.error e => Except.error e
  | Except.ok (query, params) =>
    match db query params with
    | RowScan.noRows => Except.ok 0
    | RowScan.fail e => Except.error (wrapQueryErr query e)
    | RowScan.value c => Except.ok c

/-- Whether the executors reach their storage call: `QueryEvents` runs
`b.DB.Query` (line 24) and `CountEvents` runs `b.DB.QueryRow` (line 56)
exactly when `queryEventsSql` returned a nil error — including when it
returned the empty-signal `("", nil, nil)`. -/
def hitsStorage (b : PostgresBackend) (filter : Option Filter) (doCount : Bool) : Bool :=
  match queryEventsSql b filter doCount with
  | Except.error _ => false
  | Except.ok _ => true

/-- A filter dimension short-circuits to the empty-result signal: ids,
authors or kinds present but empty or over its limit, some tag name mapped
to an empty value list, or the flattened tag values over their limit. -/
def dimensionShortCircuits (b : PostgresBackend) (f : Filter) : Bool :=
  (match f.IDs with
   | some l => l.isEmpty || decide ((l.length : Int) > b.QueryIDsLimit)
   | none => false) ||
  (match f.Authors with
   | some l => l.isEmpty || decide ((l.length : Int) > b.QueryAuthorsLimit)
   | none => false) ||
  (match f.Kinds with
   | some l => l.isEmpty || decide ((l.length : Int) > b.QueryKindsLimit)
   | none => false) ||
  f.Tags.any (fun p => p.2.isEmpty) ||
  decide (((flatValues f.Tags).length : Int) > b.QueryTagsLimit)

/-- The query text `queryEventsSql` compiles for the given shape (`""` both
for the empty-result signal and for the null-filter error). -/
def compiledQuery (b : PostgresBackend) (f : Filter) (doCount : Bool) : String :=
  match queryEventsSql b (some f) doCount with
  | Except.ok qp => qp.1
  | Except.error _ => ""

/-- The parameter list `queryEventsSql` compiles for the given shape. -/
def compiledParams (b : PostgresBackend) (f : Filter) (doCount : Bool) : List Param :=
  match queryEventsSql b (some f) doCount with
  | Except.ok qp => qp.2
  | Except.error _ => []

/-- The tag overlap condition emitted on line 160 for a non-empty flattened
tag value list. -/
def tagCond (tq : List String) : String :=
  "tagvalues && ARRAY[" ++ joinSep "," (tq.map fun _ => "?") ++ "]"

/-- The conditions the tag block appends (one overlap condition, or none). -/
def tagCondList (tq : List String) : List String :=
  if tq.length > 0 then [tagCond tq] else []

/-- The condition the `Since` block appends (line 164). -/
def sinceCondList (f : Filter) : List String :=
  match f.Since with | some _ => ["created_at >= ?"] | none => []

/-- The condition the `Until` block appends (line 168). -/
def untilCondList (f : Filter) : List String :=
  match f.Until with | some _ => ["created_at <= ?"] | none => []

/-- The parameter the `Since` block appends (line 165). -/
def sinceParamList (f : Filter) : List Param :=
  match f.Since with | some s => [Param.pint s] | none => []

/-- The parameter the `Until` block appends (line 169). -/
def untilParamList (f : Filter) : List Param :=
  match f.Until with | some u => [Param.pint u] | none => []

/-- The condition list before the `"true"` fallback, in emission order. -/
def rawConds (idC authC kindC : Option String) (f : Filter) (tq : List String) : List String :=
  idC.toList ++ authC.toList ++ kindC.toList ++ tagCondList tq ++ sinceCondList f ++ untilCondList f

/-- The full parameter list in emission order: flattened tag values, since,
until, resolved limit. -/
def fullParams (b : PostgresBackend) (f : Filter) (tq : List String) : List Param :=
  tq.map Param.pstr ++ sinceParamList f ++ untilParamList f ++ [Param.pint (resolveLimit b f)]

/-! ### Concrete instances used by witnesses and counterexamples -/

/-- A backend with maxRows 100 and every dimension limit 5. -/
def bW : PostgresBackend := ⟨100, 5, 5, 5, 5⟩

/-- A backend with maxRows 100 and every dimension limit 1. -/
def bTight : PostgresBackend := ⟨100, 1, 1, 1, 1⟩

/-- A filter requesting limit 10 and nothing else. -/
def fW4 : Filter := { Limit := 10 }

/-- A filter with two ids, both invalid hex. -/
def fWids : Filter := { IDs := some ["zz", "yy"] }

/-- 64 lowercase hex characters (a valid id value). -/
def wHex64 : String := "ffffffffffffffffffffffffffffffffffffffffffffffffffffffffffffffff"

/-- The 32 bytes `wHex64` decodes to. -/
def wBytes : List Nat := List.replicate 32 255

/-- A filter with one tag carrying one value. -/
def fWtags : Filter := { Tags := [("e", ["v"])] }

/-- A filter with one tag carrying an empty value list. -/
def fWtagEmpty : Filter := { Tags := [("e", [])] }

/-- A filter with both time bounds. -/
def fWsince : Filter := { Since := some 1000, Until := some 2000 }

/-- A filter with ids present but empty. -/
def fC1a : Filter := { IDs := some [] }

/-- A filter whose tags map is present but empty (a Go `nostr.TagMap{}`
iterates zero times, exactly like a nil map). -/
def fC1b : Filter := { Tags := [] }

/-- A stored event returned by the storage oracle below. -/
def evW : Event := ⟨"id", "pk", 0, 1, [], "c", "sig"⟩

/-- A storage oracle holding one event, returned for any query. -/
def dbRowsW : String → List Param → QueryResult := fun _ _ => QueryResult.rows [some evW]

/-- Two tags, iterated e-first (one iteration order of the same Go map). -/
def fC2a : Filter := { Tags := [("e", ["a"]), ("p", ["b"])] }

/-- The same two tags, iterated p-first (the other iteration order). -/
def fC2b : Filter := { Tags := [("p", ["b"]), ("e", ["a"])] }

/-! ### Helper lemmas: characters, strings, counting -/

theorem hexDigitChar_mem (d : Nat) : hexDigitChar d ∈ hexChars := by
  unfold hexDigitChar
  rcases Nat.lt_or_ge d 16 with h | h
  · interval_cases d <;> decide
  · have hlen : hexChars.length = 16 := rfl
    rw [List.getD_eq_default _ _ (by omega)]
    decide

theorem hexDigitChar_mem_dec (d : Nat) (hd : d < 10) : hexDigitChar d ∈ decChars := by
  interval_cases d <;> decide

theorem digitsAux_mem (fuel : Nat) : ∀ n c, c ∈ digitsAux fuel n → c ∈ decChars := by
  induction fuel with
  | zero => intro n c h; simp [digitsAux] at h
  | succ fuel ih =>
    intro n c h
    rw [digitsAux] at h
    split at h
    · simp at h
      subst h
      exact hexDigitChar_mem_dec n (by omega)
    · rcases List.mem_append.mp h with h1 | h1
      · exact ih _ _ h1
      · simp at h1
        subst h1
        exact hexDigitChar_mem_dec _ (Nat.mod_lt _ (by omega))

theorem natToChars_mem (n : Nat) (c : Char) (h : c ∈ natToChars n) : c ∈ decChars :=
  digitsAux_mem _ _ _ h

theorem string_eq_of_data {s t : String} (h : s.data = t.data) : s = t := by
  cases s; cases t; exact congrArg String.mk h

theorem mk_data_append (s : String) (l : List Char) :
    String.mk (s.data ++ l) = s ++ String.mk l := by
  apply string_eq_of_data
  rw [String.data_append]

theorem count_eq_zero_of_subset {c : Char} {l S : List Char}
    (h : ∀ x ∈ l, x ∈ S) (hc : c ∉ S) : l.count c = 0 :=
  List.count_eq_zero.mpr fun hm => hc (h c hm)

theorem rebindChars_count_dollar : ∀ (cs : List Char) (n : Nat),
    (rebindChars cs n).count '$' = cs.count '?' + cs.count '$' := by
  intro cs
  induction cs with
  | nil => intro n; rfl
  | cons c cs ih =>
    intro n
    rw [rebindChars]
    split
    · rename_i hc
      subst hc
      have hd : (natToChars n).count '$' = 0 :=
        count_eq_zero_of_subset (fun x hx => natToChars_mem n x hx) (by decide)
      simp [List.count_cons, List.count_append, hd, ih]
      all_goals omega
    · rename_i hc
      rcases Decidable.em (c = '$') with h | h
      · subst h
        simp [List.count_cons, ih, hc]
        all_goals omega
      · simp [List.count_cons, ih, hc, h]
        all_goals omega

theorem rebindChars_append_no_qmark : ∀ (p s : List Char) (n : Nat), '?' ∉ p →
    rebindChars (p ++ s) n = p ++ rebindChars s n := by
  intro p
  induction p with
  | nil => intro s n _; rfl
  | cons c cs ih =>
    intro s n hp
    rw [List.cons_append, rebindChars]
    have hc : c ≠ '?' := fun h => hp (h ▸ List.mem_cons_self c cs)
    simp only [hc, if_false]
    rw [ih s n fun h => hp (List.mem_cons_of_mem c h)]
    rfl

theorem count_joinSep (c : Char) (sep : String) (hsep : sep.data.count c = 0) :
    ∀ l : List String, (joinSep sep l).data.count c = (l.map fun s => s.data.count c).sum := by
  intro l
  induction l with
  | nil => rfl
  | cons x xs ih =>
    cases xs with
    | nil => simp [joinSep]
    | cons y ys =>
      rw [joinSep]
      rw [String.data_append, String.data_append, List.count_append, List.count_append, hsep, ih]
      simp

theorem hexEncodeChars_mem (bs : List Nat) (c : Char) (h : c ∈ hexEncodeChars bs) :
    c ∈ hexChars := by
  induction bs with
  | nil => simp [hexEncodeChars] at h
  | cons b rest ih =>
    rw [hexEncodeChars] at h
    simp only [List.mem_cons] at h
    rcases h with h | h | h
    · rw [h]; exact hexDigitChar_mem _
    · rw [h]; exact hexDigitChar_mem _
    · exact ih h

theorem hexEncodeChars_length (bs : List Nat) :
    (hexEncodeChars bs).length = 2 * bs.length := by
  induction bs with
  | nil => rfl
  | cons b rest ih =>
    rw [hexEncodeChars]
    simp [ih]
    omega

theorem itoa_mem (i : Int) (c : Char) (h : c ∈ (itoa i).data) : c ∈ '-' :: decChars := by
  unfold itoa at h
  split at h
  · rcases List.mem_cons.mp h with h1 | h1
    · rw [h1]; exact List.mem_cons_self _ _
    · exact List.mem_cons_of_mem _ (natToChars_mem _ _ h1)
  · exact List.mem_cons_of_mem _ (natToChars_mem _ _ h)

/-! ### Helper lemmas: the tag loop -/

theorem flatValues_length (tags : List (String × List String)) :
    (flatValues tags).length = (tags.map fun p => p.2.length).sum := by
  induction tags with
  | nil => rfl
  | cons p rest ih =>
    rw [flatValues]
    simp [ih]

theorem flattenTags_some_eq (L : Int) : ∀ (tags : List (String × List String)) (acc r : List String),
    flattenTags L tags acc = some r → r = acc ++ flatValues tags := by
  intro tags
  induction tags with
  | nil =>
    intro acc r h
    rw [flattenTags] at h
    injection h with h
    rw [← h, flatValues]
    simp
  | cons q rest ih =>
    intro acc r h
    rcases q with ⟨n, values⟩
    rw [flattenTags] at h
    split at h
    · exact absurd h (by simp)
    · split at h
      · exact absurd h (by simp)
      · rw [ih _ _ h, flatValues]
        simp

theorem flattenTags_none_of_mem_nil (L : Int) :
    ∀ (tags : List (String × List String)) (acc : List String),
    (∃ p ∈ tags, p.2 = []) → flattenTags L tags acc = none := by
  intro tags
  induction tags with
  | nil =>
    intro acc h
    rcases h with ⟨p, hp, _⟩
    simp at hp
  | cons q rest ih =>
    intro acc h
    rcases q with ⟨n, values⟩
    rw [flattenTags]
    split
    · rfl
    · rename_i hv
      split
      · rfl
      · apply ih
        rcases h with ⟨p, hp, hpe⟩
        rcases List.mem_cons.mp hp with h1 | h1
        · exfalso
          apply hv
          rw [h1] at hpe
          simp at hpe
          simp [hpe]
        · exact ⟨p, h1, hpe⟩

theorem flattenTags_none_of_overflow (L : Int) :
    ∀ (tags : List (String × List String)) (acc : List String),
    ((acc.length : Int) ≤ L) → ((acc.length : Int) + ((flatValues tags).length : Int) > L) →
    flattenTags L tags acc = none := by
  intro tags
  induction tags with
  | nil =>
    intro acc hle hgt
    rw [flatValues] at hgt
    simp at hgt
    omega
  | cons q rest ih =>
    intro acc hle hgt
    rcases q with ⟨n, values⟩
    rw [flattenTags]
    split
    · rfl
    · split
      · rfl
      · rename_i hv hover
        rw [flatValues] at hgt
        apply ih
        · omega
        · simp at hgt ⊢
          omega

theorem flattenTags_some_of_ok (L : Int) :
    ∀ (tags : List (String × List String)) (acc : List String),
    (∀ p ∈ tags, p.2 ≠ []) → ((acc.length : Int) + ((flatValues tags).length : Int) ≤ L) →
    flattenTags L tags acc = some (acc ++ flatValues tags) := by
  intro tags
  induction tags with
  | nil =>
    intro acc _ _
    rw [flattenTags, flatValues]
    simp
  | cons q rest ih =>
    intro acc hne hle
    rcases q with ⟨n, values⟩
    rw [flattenTags, flatValues] at *
    have hv : ¬values.length = 0 := by
      have := hne (n, values) (List.mem_cons_self _ _)
      simpa [List.length_eq_zero] using this
    rw [if_neg hv]
    have hlen : (((acc ++ values).length : Int)) ≤ L := by
      simp at hle ⊢
      omega
    rw [if_neg (by omega)]
    rw [ih _ (fun p hp => hne p (List.mem_cons_of_mem _ hp)) (by simp at hle ⊢; omega)]
    simp

/-! ### Helper lemmas: the per-dimension blocks and `buildQuery` -/

theorem idsStep_none_over {b : PostgresBackend} {f : Filter} {l : List String}
    (h : f.IDs = some l) (hover : (l.length : Int) > b.QueryIDsLimit) : idsStep b f = none := by
  simp only [idsStep, h]
  rw [if_pos hover]

theorem idsStep_none_nil_like {b : PostgresBackend} {f : Filter} {l : List String}
    (h : f.IDs = some l) (hlk : likeids l = []) : idsStep b f = none := by
  simp only [idsStep, h]
  split
  · rfl
  · rw [hlk]
    simp

theorem authorsStep_none_over {b : PostgresBackend} {f : Filter} {l : List String}
    (h : f.Authors = some l) (hover : (l.length : Int) > b.QueryAuthorsLimit) :
    authorsStep b f = none := by
  simp only [authorsStep, h]
  rw [if_pos hover]

theorem authorsStep_none_nil_like {b : PostgresBackend} {f : Filter} {l : List String}
    (h : f.Authors = some l) (hlk : likekeys l = []) : authorsStep b f = none := by
  simp only [authorsStep, h]
  split
  · rfl
  · rw [hlk]
    simp

theorem kindsStep_none_over {b : PostgresBackend} {f : Filter} {l : List Int}
    (h : f.Kinds = some l) (hover : (l.length : Int) > b.QueryKindsLimit) : kindsStep b f = none := by
  simp only [kindsStep, h]
  rw [if_pos hover]

theorem kindsStep_none_nil {b : PostgresBackend} {f : Filter}
    (h : f.Kinds = some []) : kindsStep b f = none := by
  simp only [kindsStep, h]
  split
  · rfl
  · simp

theorem idsStep_inv {b : PostgresBackend} {f : Filter} {o : Option String}
    (h : idsStep b f = some o) :
    o = none ∨ ∃ l, f.IDs = some l ∧ likeids l ≠ [] ∧
      o = some ("(" ++ joinSep " OR " (likeids l) ++ ")") := by
  cases hids : f.IDs with
  | none =>
    simp only [idsStep, hids] at h
    injection h with h
    exact Or.inl h.symm
  | some l =>
    simp only [idsStep, hids] at h
    split at h
    · exact absurd h (by simp)
    · split at h
      · exact absurd h (by simp)
      · rename_i hlk
        injection h with h
        exact Or.inr ⟨l, rfl, by simpa [List.length_eq_zero] using hlk, h.symm⟩

theorem authorsStep_inv {b : PostgresBackend} {f : Filter} {o : Option String}
    (h : authorsStep b f = some o) :
    o = none ∨ ∃ l, f.Authors = some l ∧ likekeys l ≠ [] ∧
      o = some ("(" ++ joinSep " OR " (likekeys l) ++ ")") := by
  cases hids : f.Authors with
  | none =>
    simp only [authorsStep, hids] at h
    injection h with h
    exact Or.inl h.symm
  | some l =>
    simp only [authorsStep, hids] at h
    split at h
    · exact absurd h (by simp)
    · split at h
      · exact absurd h (by simp)
      · rename_i hlk
        injection h with h
        exact Or.inr ⟨l, rfl, by simpa [List.length_eq_zero] using hlk, h.symm⟩

theorem kindsStep_inv {b : PostgresBackend} {f : Filter} {o : Option String}
    (h : kindsStep b f = some o) :
    o = none ∨ ∃ l, f.Kinds = some l ∧ l ≠ [] ∧
      o = some ("kind IN (" ++ joinSep "," (l.map itoa) ++ ")") := by
  cases hk : f.Kinds with
  | none =>
    simp only [kindsStep, hk] at h
    injection h with h
    exact Or.inl h.symm
  | some l =>
    simp only [kindsStep, hk] at h
    split at h
    · exact absurd h (by simp)
    · split at h
      · exact absurd h (by simp)
      · rename_i hl
        injection h with h
        exact Or.inr ⟨l, rfl, by simpa [List.length_eq_zero] using hl, h.symm⟩

theorem buildQuery_none_of_step {b : PostgresBackend} {f : Filter}
    (h : idsStep b f = none ∨ authorsStep b f = none ∨ kindsStep b f = none ∨
      flattenTags b.QueryTagsLimit f.Tags [] = none) : buildQuery b f = none := by
  unfold buildQuery
  rcases h with h | h | h | h
  · rw [h]
    rfl
  · rw [h]
    cases idsStep b f <;> rfl
  · rw [h]
    cases idsStep b f <;> cases authorsStep b f <;> rfl
  · rw [h]
    cases idsStep b f <;> cases authorsStep b f <;> cases kindsStep b f <;> rfl

theorem buildQuery_eq {b : PostgresBackend} {f : Filter}
    {idC authC kindC : Option String} {tq : List String}
    (h1 : idsStep b f = some idC) (h2 : authorsStep b f = some authC)
    (h3 : kindsStep b f = some kindC) (h4 : flattenTags b.QueryTagsLimit f.Tags [] = some tq) :
    buildQuery b f = some
      (if (rawConds idC authC kindC f tq).length = 0 then ["true"]
       else rawConds idC authC kindC f tq,
       fullParams b f tq) := by
  unfold buildQuery
  rw [h1, h2, h3, h4]
  simp only [Option.bind_some]
  unfold rawConds fullParams tagCondList tagCond sinceCondList untilCondList
    sinceParamList untilParamList
  cases f.Since <;> cases f.Until <;> simp [List.append_assoc]

theorem buildQuery_some_elim {b : PostgresBackend} {f : Filter} {conds : List String}
    {ps : List Param} (h : buildQuery b f = some (conds, ps)) :
    ∃ idC authC kindC tq,
      idsStep b f = some idC ∧ authorsStep b f = some authC ∧ kindsStep b f = some kindC ∧
      flattenTags b.QueryTagsLimit f.Tags [] = some tq ∧
      conds = (if (rawConds idC authC kindC f tq).length = 0 then ["true"]
               else rawConds idC authC kindC f tq) ∧
      ps = fullParams b f tq := by
  cases hi : idsStep b f with
  | none => rw [buildQuery_none_of_step (Or.inl hi)] at h; exact absurd h (by simp)
  | some idC =>
  cases ha : authorsStep b f with
  | none => rw [buildQuery_none_of_step (Or.inr (Or.inl ha))] at h; exact absurd h (by simp)
  | some authC =>
  cases hk : kindsStep b f with
  | none => rw [buildQuery_none_of_step (Or.inr (Or.inr (Or.inl hk)))] at h; exact absurd h (by simp)
  | some kindC =>
  cases ht : flattenTags b.QueryTagsLimit f.Tags [] with
  | none => rw [buildQuery_none_of_step (Or.inr (Or.inr (Or.inr ht)))] at h; exact absurd h (by simp)
  | some tq =>
    rw [buildQuery_eq hi ha hk ht] at h
    injection h with h
    refine ⟨idC, authC, kindC, tq, rfl, rfl, rfl, rfl, ?_, ?_⟩
    · exact (congrArg Prod.fst h).symm
    · exact (congrArg Prod.snd h).symm

theorem queryEventsSql_signal {b : PostgresBackend} {f : Filter} {dc : Bool}
    (h : buildQuery b f = none) : queryEventsSql b (some f) dc = Except.ok ("", []) := by
  simp only [queryEventsSql, h]

theorem queryEventsSql_compiled {b : PostgresBackend} {f : Filter} {conds : List String}
    {ps : List Param} {dc : Bool} (h : buildQuery b f = some (conds, ps)) :
    queryEventsSql b (some f) dc = Except.ok
      (rebind ((if dc then countSelect else rowsSelect) ++ joinSep " AND " conds ++ orderLimitTail),
       ps) := by
  cases dc <;> simp only [queryEventsSql, h] <;> rfl

/-! ### Helper lemmas: parameter list shape, string disequalities -/

theorem fullParams_getLast (b : PostgresBackend) (f : Filter) (tq : List String) :
    (fullParams b f tq).getLast? = some (Param.pint (resolveLimit b f)) := by
  unfold fullParams
  exact List.getLast?_concat _

theorem fullParams_ne_nil (b : PostgresBackend) (f : Filter) (tq : List String) :
    fullParams b f tq ≠ [] := by
  intro h
  have := fullParams_getLast b f tq
  rw [h] at this
  exact absurd this (by simp)

theorem prefixed_ne (p x t : String) (c : Char) (hp : p.data.head? = some c)
    (ht : t.data.head? ≠ some c) : p ++ x ≠ t := by
  intro h
  apply ht
  rw [← h, String.data_append]
  cases hd : p.data with
  | nil => rw [hd] at hp; exact absurd hp (by simp)
  | cons a l =>
    rw [hd] at hp
    simpa using hp

theorem rebind_append_prefix (p s : String) (hp : '?' ∉ p.data) :
    rebind (p ++ s) = p ++ String.mk (rebindChars s.data 1) := by
  unfold rebind
  rw [String.data_append, rebindChars_append_no_qmark _ _ _ hp, ← mk_data_append]

theorem rebind_conds (sel : String) (hsel : '?' ∉ sel.data) (conds : List String) :
    rebind (sel ++ joinSep " AND " conds ++ orderLimitTail)
      = sel ++ String.mk (rebindChars (joinSep " AND " conds ++ orderLimitTail).data 1) := by
  have hassoc : sel ++ joinSep " AND " conds ++ orderLimitTail
      = sel ++ (joinSep " AND " conds ++ orderLimitTail) := by
    apply string_eq_of_data
    rw [String.data_append, String.data_append, String.data_append, String.data_append,
        List.append_assoc]
  rw [hassoc, rebind_append_prefix _ _ hsel]

theorem validHex32_length {s : String} {bs : List Nat} (h : validHex32 s = some bs) :
    bs.length = 32 := by
  cases hd : hexDecode s with
  | none =>
    simp only [validHex32, hd] at h
    exact absurd h (by simp)
  | some parsed =>
    simp only [validHex32, hd] at h
    split at h
    · rename_i hlen
      injection h with h
      rw [← h]
      exact hlen
    · exact absurd h (by simp)

theorem signal_of_idsStep_none {b : PostgresBackend} {f : Filter} {dc : Bool}
    (h : idsStep b f = none) : queryEventsSql b (some f) dc = Except.ok ("", []) :=
  queryEventsSql_signal (buildQuery_none_of_step (Or.inl h))

theorem signal_of_authorsStep_none {b : PostgresBackend} {f : Filter} {dc : Bool}
    (h : authorsStep b f = none) : queryEventsSql b (some f) dc = Except.ok ("", []) :=
  queryEventsSql_signal (buildQuery_none_of_step (Or.inr (Or.inl h)))

theorem signal_of_kindsStep_none {b : PostgresBackend} {f : Filter} {dc : Bool}
    (h : kindsStep b f = none) : queryEventsSql b (some f) dc = Except.ok ("", []) :=
  queryEventsSql_signal (buildQuery_none_of_step (Or.inr (Or.inr (Or.inl h))))

theorem signal_of_flatten_none {b : PostgresBackend} {f : Filter} {dc : Bool}
    (h : flattenTags b.QueryTagsLimit f.Tags [] = none) :
    queryEventsSql b (some f) dc = Except.ok ("", []) :=
  queryEventsSql_signal (buildQuery_none_of_step (Or.inr (Or.inr (Or.inr h))))

theorem likeids_nil_of_all_invalid {l : List String} (h : ∀ s ∈ l, validHex32 s = none) :
    likeids l = [] := by
  unfold likeids
  rw [List.filterMap_eq_nil_iff]
  intro a ha
  rw [h a ha]
  rfl

theorem likekeys_nil_of_all_invalid {l : List String} (h : ∀ s ∈ l, validHex32 s = none) :
    likekeys l = [] := by
  unfold likekeys
  rw [List.filterMap_eq_nil_iff]
  intro a ha
  rw [h a ha]
  rfl

/-! ### Claim theorems -/

/-- C9: `queryEventsSql` raises the error "filter cannot be null" exactly on
the null filter: `QueryEvents` and `CountEvents` both surface that error for
a null filter, and for every non-null filter the compilation stage returns
no error at all (empty-result signals are `ok`, not errors). -/
theorem null_filter_only_error (b : PostgresBackend)
    (db : String → List Param → QueryResult) (dbr : String → List Param → RowScan)
    (f : Filter) (dc : Bool) :
    queryEventsSql b none dc = Except.error "filter cannot be null" ∧
    QueryEvents b db none = Except.error "filter cannot be null" ∧
    CountEvents b dbr none = Except.error "filter cannot be null" ∧
    ∃ qp, queryEventsSql b (some f) dc = Except.ok qp := by
  refine ⟨rfl, rfl, rfl, ?_⟩
  cases h : buildQuery b f with
  | none => exact ⟨_, queryEventsSql_signal h⟩
  | some cp =>
    rcases cp with ⟨conds, ps⟩
    exact ⟨_, queryEventsSql_compiled h⟩

/-- C4: whenever compilation yields a real query, the final bound parameter
is the resolved limit: the requested `filter.Limit` when it lies in
`[1, maxRows]`, and `maxRows` (`b.QueryLimit`) when the request is absent
(0), zero, negative, or above `maxRows`. -/
theorem resolved_limit_last_param (b : PostgresBackend) (f : Filter) (dc : Bool)
    (q : String) (ps : List Param) (hok : queryEventsSql b (some f) dc = Except.ok (q, ps))
    (hne : q ≠ "") :
    (1 ≤ f.Limit ∧ f.Limit ≤ b.QueryLimit → ps.getLast? = some (Param.pint f.Limit)) ∧
    ((f.Limit < 1 ∨ b.QueryLimit < f.Limit) → ps.getLast? = some (Param.pint b.QueryLimit)) := by
  cases h : buildQuery b f with
  | none =>
    have := (@queryEventsSql_signal b f dc h).symm.trans hok
    injection this with this
    exact absurd (congrArg Prod.fst this).symm hne
  | some cp =>
    rcases cp with ⟨conds, ps0⟩
    have hq := (@queryEventsSql_compiled b f conds ps0 dc h).symm.trans hok
    injection hq with hq
    have hps : ps = ps0 := (congrArg Prod.snd hq).symm
    rcases buildQuery_some_elim h with ⟨idC, authC, kindC, tq, _, _, _, _, _, hps0⟩
    constructor
    · intro hin
      rw [hps, hps0, fullParams_getLast]
      unfold resolveLimit
      rw [if_neg (by omega)]
    · intro hout
      rw [hps, hps0, fullParams_getLast]
      unfold resolveLimit
      rw [if_pos (by omega)]

/-- Witness for C4: filter requesting limit 10 under maxRows 100 binds 10
as the final parameter. -/
theorem resolved_limit_last_param_witness :
    (compiledParams bW fW4 false).getLast? = some (Param.pint 10) :=
  (resolved_limit_last_param bW fW4 false (compiledQuery bW fW4 false)
    (compiledParams bW fW4 false) rfl (by decide)).1 (by decide)

/-- C3: for every non-null filter the two shapes are derived from exactly
the same condition list and parameter list: either both compile to the
empty-result signal, or both query texts consist of a shape-specific
selection prefix followed by one shared rebound fragment `w` (the
WHERE conditions joined by AND, then ` ORDER BY created_at DESC LIMIT`
and the placeholder), with identical parameter lists; the count shape
retains the ORDER BY/LIMIT tail. -/
theorem count_rows_share_where_limit (b : PostgresBackend) (f : Filter) :
    (queryEventsSql b (some f) false = Except.ok ("", []) ∧
     queryEventsSql b (some f) true = Except.ok ("", [])) ∨
    ∃ conds ps w,
      buildQuery b f = some (conds, ps) ∧
      w = String.mk (rebindChars (joinSep " AND " conds ++ orderLimitTail).data 1) ∧
      queryEventsSql b (some f) false = Except.ok (rowsSelect ++ w, ps) ∧
      queryEventsSql b (some f) true = Except.ok (countSelect ++ w, ps) := by
  cases h : buildQuery b f with
  | none => exact Or.inl ⟨queryEventsSql_signal h, queryEventsSql_signal h⟩
  | some cp =>
    rcases cp with ⟨conds, ps⟩
    refine Or.inr ⟨conds, ps, _, rfl, rfl, ?_, ?_⟩
    · have hc := @queryEventsSql_compiled b f conds ps false h
      rw [hc]
      simp only [Bool.false_eq_true, if_false]
      rw [rebind_conds rowsSelect (by decide) conds]
    · have hc := @queryEventsSql_compiled b f conds ps true h
      rw [hc]
      simp only [if_true]
      rw [rebind_conds countSelect (by decide) conds]

/-! ### C6 support: dropping invalid entries -/

theorem likeids_filter (l : List String) :
    likeids l = likeids (l.filter fun s => (validHex32 s).isSome) := by
  induction l with
  | nil => rfl
  | cons a l ih =>
    unfold likeids at ih ⊢
    cases hg : validHex32 a with
    | none => simp [List.filter_cons, List.filterMap_cons, hg, ih]
    | some p => simp [List.filter_cons, List.filterMap_cons, hg, ih]

theorem likekeys_filter (l : List String) :
    likekeys l = likekeys (l.filter fun s => (validHex32 s).isSome) := by
  induction l with
  | nil => rfl
  | cons a l ih =>
    unfold likekeys at ih ⊢
    cases hg : validHex32 a with
    | none => simp [List.filter_cons, List.filterMap_cons, hg, ih]
    | some p => simp [List.filter_cons, List.filterMap_cons, hg, ih]

/-- C6: an ids/authors entry that does not hex-decode to exactly 32 raw
bytes is silently dropped — the emitted conditions are exactly those of the
valid sub-list and compilation never errors on a non-null filter; when no
entry survives, the outcome is the empty-result signal; and the over-limit
size check fires on the requested (pre-filtering) entry count. -/
theorem invalid_entries_dropped (b : PostgresBackend) (f : Filter) (dc : Bool) :
    (∀ l, f.IDs = some l →
      (((l.length : Int) > b.QueryIDsLimit →
        queryEventsSql b (some f) dc = Except.ok ("", [])) ∧
       ((∀ s ∈ l, validHex32 s = none) →
        queryEventsSql b (some f) dc = Except.ok ("", [])))) ∧
    (∀ l, f.Authors = some l →
      (((l.length : Int) > b.QueryAuthorsLimit →
        queryEventsSql b (some f) dc = Except.ok ("", [])) ∧
       ((∀ s ∈ l, validHex32 s = none) →
        queryEventsSql b (some f) dc = Except.ok ("", [])))) ∧
    (∀ l, likeids l = likeids (l.filter fun s => (validHex32 s).isSome)) ∧
    (∀ l, likekeys l = likekeys (l.filter fun s => (validHex32 s).isSome)) ∧
    (∀ e, queryEventsSql b (some f) dc ≠ Except.error e) := by
  refine ⟨?_, ?_, likeids_filter, likekeys_filter, ?_⟩
  · intro l hl
    constructor
    · intro hover
      exact signal_of_idsStep_none (idsStep_none_over hl hover)
    · intro hinv
      exact signal_of_idsStep_none (idsStep_none_nil_like hl (likeids_nil_of_all_invalid hinv))
  · intro l hl
    constructor
    · intro hover
      exact signal_of_authorsStep_none (authorsStep_none_over hl hover)
    · intro hinv
      exact signal_of_authorsStep_none
        (authorsStep_none_nil_like hl (likekeys_nil_of_all_invalid hinv))
  · intro e he
    cases hb : buildQuery b f with
    | none =>
      have := (@queryEventsSql_signal b f dc hb).symm.trans he
      exact absurd this (by simp)
    | some cp =>
      rcases cp with ⟨conds, ps⟩
      have := (@queryEventsSql_compiled b f conds ps dc hb).symm.trans he
      exact absurd this (by simp)

/-- Witness for C6: two invalid ids under limit 1 hit the requested-count
check; under limit 5 the all-invalid branch yields the signal. -/
theorem invalid_entries_dropped_witness :
    queryEventsSql bTight (some fWids) false = Except.ok ("", []) ∧
    queryEventsSql bW (some fWids) false = Except.ok ("", []) :=
  ⟨((invalid_entries_dropped bTight fWids false).1 ["zz", "yy"] rfl).1 (by decide),
   ((invalid_entries_dropped bW fWids false).1 ["zz", "yy"] rfl).2 (by decide)⟩

/-! ### Counting conditions in the emitted list -/

theorem head_append_left (p x : String) (c : Char) (hp : p.data.head? = some c) :
    (p ++ x).data.head? = some c := by
  rw [String.data_append]
  cases hd : p.data with
  | nil => rw [hd] at hp; exact absurd hp (by simp)
  | cons a l => rw [hd] at hp; simpa using hp

theorem append_ne_of_head {p t : String} {c : Char} (hp : p.data.head? = some c)
    (ht : t.data.head? ≠ some c) : p ≠ t := fun h => ht (h ▸ hp)

theorem tagCond_head (tq : List String) : (tagCond tq).data.head? = some 't' :=
  head_append_left _ _ _ (head_append_left _ _ _ rfl)

theorem count_toList_zero {o : Option String} {t : String}
    (h : ∀ x, o = some x → x ≠ t) : o.toList.count t = 0 := by
  cases o with
  | none => rfl
  | some x =>
    have hx := h x rfl
    simp [Option.toList, List.count_cons, hx]

theorem idC_count_zero {b : PostgresBackend} {f : Filter} {idC : Option String}
    (h : idsStep b f = some idC) {t : String} (ht : t.data.head? ≠ some '(') :
    idC.toList.count t = 0 := by
  apply count_toList_zero
  intro x hx
  rcases idsStep_inv h with h0 | ⟨l, _, _, hsh⟩
  · rw [h0] at hx
    exact absurd hx (by simp)
  · rw [hsh] at hx
    injection hx with hx
    rw [← hx]
    exact append_ne_of_head (head_append_left _ _ _ (head_append_left _ _ _ rfl)) ht

theorem authC_count_zero {b : PostgresBackend} {f : Filter} {authC : Option String}
    (h : authorsStep b f = some authC) {t : String} (ht : t.data.head? ≠ some '(') :
    authC.toList.count t = 0 := by
  apply count_toList_zero
  intro x hx
  rcases authorsStep_inv h with h0 | ⟨l, _, _, hsh⟩
  · rw [h0] at hx
    exact absurd hx (by simp)
  · rw [hsh] at hx
    injection hx with hx
    rw [← hx]
    exact append_ne_of_head (head_append_left _ _ _ (head_append_left _ _ _ rfl)) ht

theorem kindC_count_zero {b : PostgresBackend} {f : Filter} {kindC : Option String}
    (h : kindsStep b f = some kindC) {t : String} (ht : t.data.head? ≠ some 'k') :
    kindC.toList.count t = 0 := by
  apply count_toList_zero
  intro x hx
  rcases kindsStep_inv h with h0 | ⟨l, _, _, hsh⟩
  · rw [h0] at hx
    exact absurd hx (by simp)
  · rw [hsh] at hx
    injection hx with hx
    rw [← hx]
    exact append_ne_of_head (head_append_left _ _ _ (head_append_left _ _ _ rfl)) ht

theorem tagCondList_count_ne (tq : List String) {t : String}
    (ht : t.data.head? ≠ some 't') : (tagCondList tq).count t = 0 := by
  unfold tagCondList
  split
  · have := append_ne_of_head (tagCond_head tq) ht
    simp [List.count_cons, this]
  · rfl

theorem tagCondList_count_self (tq : List String) (htq : tq ≠ []) :
    (tagCondList tq).count (tagCond tq) = 1 := by
  unfold tagCondList
  rw [if_pos (by cases tq with | nil => exact absurd rfl htq | cons a l => simp)]
  simp [List.count_cons]

theorem sinceCondList_count_self {f : Filter} {s : Int} (hs : f.Since = some s) :
    (sinceCondList f).count "created_at >= ?" = 1 := by
  simp [sinceCondList, hs, List.count_cons]

theorem sinceCondList_count_ne (f : Filter) {t : String} (ht : t ≠ "created_at >= ?") :
    (sinceCondList f).count t = 0 := by
  unfold sinceCondList
  cases f.Since with
  | none => rfl
  | some s => simp [List.count_cons, Ne.symm ht]

theorem untilCondList_count_self {f : Filter} {u : Int} (hu : f.Until = some u) :
    (untilCondList f).count "created_at <= ?" = 1 := by
  simp [untilCondList, hu, List.count_cons]

theorem untilCondList_count_ne (f : Filter) {t : String} (ht : t ≠ "created_at <= ?") :
    (untilCondList f).count t = 0 := by
  unfold untilCondList
  cases f.Until with
  | none => rfl
  | some u => simp [List.count_cons, Ne.symm ht]

theorem rawConds_count_since {b : PostgresBackend} {f : Filter}
    {idC authC kindC : Option String} {tq : List String} {s : Int}
    (h1 : idsStep b f = some idC) (h2 : authorsStep b f = some authC)
    (h3 : kindsStep b f = some kindC) (hs : f.Since = some s) :
    (rawConds idC authC kindC f tq).count "created_at >= ?" = 1 := by
  unfold rawConds
  simp only [List.count_append]
  rw [idC_count_zero h1 (by decide), authC_count_zero h2 (by decide),
      kindC_count_zero h3 (by decide), tagCondList_count_ne tq (by decide),
      sinceCondList_count_self hs, untilCondList_count_ne f (by decide)]

theorem rawConds_count_until {b : PostgresBackend} {f : Filter}
    {idC authC kindC : Option String} {tq : List String} {u : Int}
    (h1 : idsStep b f = some idC) (h2 : authorsStep b f = some authC)
    (h3 : kindsStep b f = some kindC) (hu : f.Until = some u) :
    (rawConds idC authC kindC f tq).count "created_at <= ?" = 1 := by
  unfold rawConds
  simp only [List.count_append]
  rw [idC_count_zero h1 (by decide), authC_count_zero h2 (by decide),
      kindC_count_zero h3 (by decide), tagCondList_count_ne tq (by decide),
      sinceCondList_count_ne f (by decide), untilCondList_count_self hu]

theorem rawConds_count_tag {b : PostgresBackend} {f : Filter}
    {idC authC kindC : Option String} {tq : List String}
    (h1 : idsStep b f = some idC) (h2 : authorsStep b f = some authC)
    (h3 : kindsStep b f = some kindC) (htq : tq ≠ []) :
    (rawConds idC authC kindC f tq).count (tagCond tq) = 1 := by
  unfold rawConds
  simp only [List.count_append]
  rw [idC_count_zero h1 (by rw [tagCond_head]; decide),
      authC_count_zero h2 (by rw [tagCond_head]; decide),
      kindC_count_zero h3 (by rw [tagCond_head]; decide),
      tagCondList_count_self tq htq,
      sinceCondList_count_ne f (append_ne_of_head (tagCond_head tq) (by decide)),
      untilCondList_count_ne f (append_ne_of_head (tagCond_head tq) (by decide))]

theorem rawConds_ne_zero_of_since {f : Filter} {s : Int}
    (idC authC kindC : Option String) (tq : List String) (hs : f.Since = some s) :
    ¬(rawConds idC authC kindC f tq).length = 0 := by
  intro h0
  unfold rawConds at h0
  simp [List.length_append, sinceCondList, hs] at h0

theorem rawConds_ne_zero_of_until {f : Filter} {u : Int}
    (idC authC kindC : Option String) (tq : List String) (hu : f.Until = some u) :
    ¬(rawConds idC authC kindC f tq).length = 0 := by
  intro h0
  unfold rawConds at h0
  simp [List.length_append, untilCondList, hu] at h0

theorem rawConds_ne_zero_of_tag {f : Filter}
    (idC authC kindC : Option String) {tq : List String} (htq : tq ≠ []) :
    ¬(rawConds idC authC kindC f tq).length = 0 := by
  intro h0
  unfold rawConds tagCondList at h0
  rw [if_pos (by cases tq with | nil => exact absurd rfl htq | cons a l => simp)] at h0
  simp [List.length_append] at h0

/-- C8: when `since` is present exactly one condition `created_at >= ?` is
emitted with `since` bound; when `until` is present exactly one condition
`created_at <= ?` with `until` bound; and a non-null filter that emitted no
condition at all gets the single always-true condition, bounded only by the
LIMIT parameter. -/
theorem time_range_and_fallback_conditions (b : PostgresBackend) (f : Filter) :
    (∀ conds ps, buildQuery b f = some (conds, ps) →
      (∀ s, f.Since = some s →
        conds.count "created_at >= ?" = 1 ∧ Param.pint s ∈ ps) ∧
      (∀ u, f.Until = some u →
        conds.count "created_at <= ?" = 1 ∧ Param.pint u ∈ ps)) ∧
    (f.IDs = none → f.Authors = none → f.Kinds = none → f.Tags = [] →
     f.Since = none → f.Until = none →
     buildQuery b f = some (["true"], [Param.pint (resolveLimit b f)])) := by
  constructor
  · intro conds ps h
    rcases buildQuery_some_elim h with ⟨idC, authC, kindC, tq, h1, h2, h3, h4, hconds, hps⟩
    constructor
    · intro s hs
      constructor
      · rw [hconds, if_neg (rawConds_ne_zero_of_since idC authC kindC tq hs)]
        exact rawConds_count_since h1 h2 h3 hs
      · rw [hps]
        unfold fullParams sinceParamList
        rw [hs]
        simp
    · intro u hu
      constructor
      · rw [hconds, if_neg (rawConds_ne_zero_of_until idC authC kindC tq hu)]
        exact rawConds_count_until h1 h2 h3 hu
      · rw [hps]
        unfold fullParams untilParamList
        rw [hu]
        simp
  · intro hI hA hK hT hS hU
    have e1 : idsStep b f = some none := by simp [idsStep, hI]
    have e2 : authorsStep b f = some none := by simp [authorsStep, hA]
    have e3 : kindsStep b f = some none := by simp [kindsStep, hK]
    have e4 : flattenTags b.QueryTagsLimit f.Tags [] = some [] := by rw [hT]; rfl
    rw [buildQuery_eq e1 e2 e3 e4]
    unfold rawConds fullParams tagCondList sinceCondList untilCondList
      sinceParamList untilParamList
    rw [hS, hU]
    simp

/-- Witness for C8: the since/until filter emits each bound time condition
exactly once; the empty filter compiles to the single `true` condition. -/
theorem time_range_and_fallback_conditions_witness :
    (["created_at >= ?", "created_at <= ?"].count "created_at >= ?" = 1 ∧
      Param.pint 1000 ∈ [Param.pint 1000, Param.pint 2000, Param.pint 100]) ∧
    buildQuery bW fC1b = some (["true"], [Param.pint (resolveLimit bW fC1b)]) :=
  ⟨((time_range_and_fallback_conditions bW fWsince).1
      ["created_at >= ?", "created_at <= ?"]
      [Param.pint 1000, Param.pint 2000, Param.pint 100] rfl).1 1000 rfl,
   (time_range_and_fallback_conditions bW fC1b).2 rfl rfl rfl rfl rfl rfl⟩

/-- C7: tag names are ignored — all tag value lists are flattened into one
ordered sequence; a tag with an empty value list yields the empty-result
signal; a flattened sequence longer than maxTagValues yields the
empty-result signal; and a non-empty flattened sequence emits exactly one
overlap condition `tagvalues && ARRAY[?,...,?]` whose values open the bound
parameter list, in order. -/
theorem tags_flatten_overlap_condition (b : PostgresBackend) (f : Filter) (dc : Bool)
    (hL : 0 ≤ b.QueryTagsLimit) :
    ((∃ p ∈ f.Tags, p.2 = []) → queryEventsSql b (some f) dc = Except.ok ("", [])) ∧
    (((flatValues f.Tags).length : Int) > b.QueryTagsLimit →
      queryEventsSql b (some f) dc = Except.ok ("", [])) ∧
    (∀ conds ps, buildQuery b f = some (conds, ps) →
      flattenTags b.QueryTagsLimit f.Tags [] = some (flatValues f.Tags) ∧
      (flatValues f.Tags ≠ [] →
        conds.count (tagCond (flatValues f.Tags)) = 1 ∧
        ∃ rest, ps = (flatValues f.Tags).map Param.pstr ++ rest)) := by
  refine ⟨?_, ?_, ?_⟩
  · intro h
    exact signal_of_flatten_none (flattenTags_none_of_mem_nil _ _ _ h)
  · intro h
    apply signal_of_flatten_none
    apply flattenTags_none_of_overflow
    · simpa using hL
    · simpa using h
  · intro conds ps h
    rcases buildQuery_some_elim h with ⟨idC, authC, kindC, tq, h1, h2, h3, h4, hconds, hps⟩
    have htq : tq = flatValues f.Tags := by
      have := flattenTags_some_eq _ _ _ _ h4
      simpa using this
    subst htq
    refine ⟨h4, ?_⟩
    intro hne
    constructor
    · rw [hconds, if_neg (rawConds_ne_zero_of_tag idC authC kindC hne)]
      exact rawConds_count_tag h1 h2 h3 hne
    · refine ⟨sinceParamList f ++ untilParamList f ++ [Param.pint (resolveLimit b f)], ?_⟩
      rw [hps]
      unfold fullParams
      simp [List.append_assoc]

/-- Witness for C7: a tag with an empty value list yields the empty signal;
the one-value tag filter flattens to its single value. -/
theorem tags_flatten_overlap_condition_witness :
    queryEventsSql bW (some fWtagEmpty) false = Except.ok ("", []) ∧
    flattenTags bW.QueryTagsLimit fWtags.Tags [] = some (flatValues fWtags.Tags) :=
  ⟨(tags_flatten_overlap_condition bW fWtagEmpty false (by decide)).1
      ⟨("e", []), by decide, rfl⟩,
   ((tags_flatten_overlap_condition bW fWtags false (by decide)).2.2
      ["tagvalues && ARRAY[?]"] [Param.pstr "v", Param.pint 100] rfl).1⟩

/-- C5: every fragment emitted for an ids/authors entry embeds exactly the
lowercase-hex re-encoding of that entry's validated 32 raw bytes — 64
characters all drawn from `0-9a-f` — followed by the wildcard suffix, as a
literal in the fragment; the per-dimension fragments are OR-combined into
one parenthesized group; and ids/authors material never becomes a bound
parameter (every string parameter is a tag value). -/
theorem hex_literal_prefix_conditions (b : PostgresBackend) (f : Filter)
    (l : List String) (c : String) :
    (c ∈ likeids l ∨ c ∈ likekeys l →
      ∃ s parsed, s ∈ l ∧ validHex32 s = some parsed ∧ parsed.length = 32 ∧
        (c = "id LIKE '" ++ hexEncode parsed ++ "%'" ∨
         c = "pubkey LIKE '" ++ hexEncode parsed ++ "%'") ∧
        (hexEncode parsed).data.length = 64 ∧
        ∀ ch ∈ (hexEncode parsed).data, ch ∈ hexChars) ∧
    (∀ cond, idsStep b f = some (some cond) →
      ∃ ids, f.IDs = some ids ∧ likeids ids ≠ [] ∧
        cond = "(" ++ joinSep " OR " (likeids ids) ++ ")") ∧
    (∀ cond, authorsStep b f = some (some cond) →
      ∃ keys, f.Authors = some keys ∧ likekeys keys ≠ [] ∧
        cond = "(" ++ joinSep " OR " (likekeys keys) ++ ")") ∧
    (∀ q ps v, queryEventsSql b (some f) false = Except.ok (q, ps) →
      Param.pstr v ∈ ps → v ∈ flatValues f.Tags) := by
  refine ⟨?_, ?_, ?_, ?_⟩
  · rintro (hc | hc)
    · rcases List.mem_filterMap.mp hc with ⟨a, ha, hg⟩
      cases hv : validHex32 a with
      | none => rw [hv] at hg; exact absurd hg (by simp)
      | some parsed =>
        rw [hv] at hg
        simp only [Option.map_some'] at hg
        injection hg with hg
        refine ⟨a, parsed, ha, hv, validHex32_length hv, Or.inl hg.symm, ?_, ?_⟩
        · have : (hexEncode parsed).data = hexEncodeChars parsed := rfl
          rw [this, hexEncodeChars_length, validHex32_length hv]
        · intro ch hch
          exact hexEncodeChars_mem parsed ch hch
    · rcases List.mem_filterMap.mp hc with ⟨a, ha, hg⟩
      cases hv : validHex32 a with
      | none => rw [hv] at hg; exact absurd hg (by simp)
      | some parsed =>
        rw [hv] at hg
        simp only [Option.map_some'] at hg
        injection hg with hg
        refine ⟨a, parsed, ha, hv, validHex32_length hv, Or.inr hg.symm, ?_, ?_⟩
        · have : (hexEncode parsed).data = hexEncodeChars parsed := rfl
          rw [this, hexEncodeChars_length, validHex32_length hv]
        · intro ch hch
          exact hexEncodeChars_mem parsed ch hch
  · intro cond hc
    rcases idsStep_inv hc with h0 | ⟨ids, hids, hne, hsh⟩
    · exact absurd h0 (by simp)
    · injection hsh with hsh
      exact ⟨ids, hids, hne, hsh⟩
  · intro cond hc
    rcases authorsStep_inv hc with h0 | ⟨keys, hkeys, hne, hsh⟩
    · exact absurd h0 (by simp)
    · injection hsh with hsh
      exact ⟨keys, hkeys, hne, hsh⟩
  · intro q ps v hok hps
    cases hb : buildQuery b f with
    | none =>
      have hsg := (@queryEventsSql_signal b f false hb).symm.trans hok
      injection hsg with hsg
      injection hsg with hq1 hp1
      rw [← hp1] at hps
      exact absurd hps (by simp)
    | some cp =>
      rcases cp with ⟨conds, ps0⟩
      have heq := (@queryEventsSql_compiled b f conds ps0 false hb).symm.trans hok
      injection heq with heq
      have hps0 : ps = ps0 := (congrArg Prod.snd heq).symm
      rcases buildQuery_some_elim hb with ⟨idC, authC, kindC, tq, _, _, _, h4, _, hfull⟩
      have htq : tq = flatValues f.Tags := by
        have := flattenTags_some_eq _ _ _ _ h4
        simpa using this
      rw [hps0, hfull] at hps
      unfold fullParams at hps
      rcases List.mem_append.mp hps with hm | hm
      · rcases List.mem_append.mp hm with hm2 | hm2
        · rcases List.mem_append.mp hm2 with hm3 | hm3
          · rcases List.mem_map.mp hm3 with ⟨w, hw, hweq⟩
            injection hweq with hweq
            rw [← hweq, ← htq]
            exact hw
          · cases hS : f.Since with
            | none => simp [sinceParamList, hS] at hm3
            | some s => simp [sinceParamList, hS] at hm3
        · cases hU : f.Until with
          | none => simp [untilParamList, hU] at hm2
          | some u => simp [untilParamList, hU] at hm2
      · simp at hm

/-- Witness for C5: the only string parameter of the one-tag filter is its
tag value. -/
theorem hex_literal_prefix_conditions_witness :
    "v" ∈ flatValues fWtags.Tags :=
  (hex_literal_prefix_conditions bW fWtags [] "").2.2.2
    (compiledQuery bW fWtags false) (compiledParams bW fWtags false) "v" rfl (by decide)

/-! ### C10 support: placeholder counting -/

theorem likeids_elem_count {l : List String} {s : String} (hs : s ∈ likeids l) {c : Char}
    (hc : c ∉ hexChars) (hpre : ("id LIKE '" : String).data.count c = 0)
    (hsuf : ("%'" : String).data.count c = 0) : s.data.count c = 0 := by
  rcases List.mem_filterMap.mp hs with ⟨a, ha, hg⟩
  cases hv : validHex32 a with
  | none => rw [hv] at hg; exact absurd hg (by simp)
  | some parsed =>
    rw [hv] at hg
    simp only [Option.map_some'] at hg
    injection hg with hg
    rw [← hg]
    simp only [String.data_append, List.count_append]
    rw [hpre, hsuf]
    have hmid : (hexEncode parsed).data.count c = 0 :=
      count_eq_zero_of_subset (fun x hx => hexEncodeChars_mem parsed x hx) hc
    rw [hmid]

theorem likekeys_elem_count {l : List String} {s : String} (hs : s ∈ likekeys l) {c : Char}
    (hc : c ∉ hexChars) (hpre : ("pubkey LIKE '" : String).data.count c = 0)
    (hsuf : ("%'" : String).data.count c = 0) : s.data.count c = 0 := by
  rcases List.mem_filterMap.mp hs with ⟨a, ha, hg⟩
  cases hv : validHex32 a with
  | none => rw [hv] at hg; exact absurd hg (by simp)
  | some parsed =>
    rw [hv] at hg
    simp only [Option.map_some'] at hg
    injection hg with hg
    rw [← hg]
    simp only [String.data_append, List.count_append]
    rw [hpre, hsuf]
    have hmid : (hexEncode parsed).data.count c = 0 :=
      count_eq_zero_of_subset (fun x hx => hexEncodeChars_mem parsed x hx) hc
    rw [hmid]

theorem group_count_zero (lk : List String) {c : Char}
    (hp1 : ("(" : String).data.count c = 0) (hp2 : (")" : String).data.count c = 0)
    (hsep : (" OR " : String).data.count c = 0)
    (helem : ∀ s ∈ lk, s.data.count c = 0) :
    ("(" ++ joinSep " OR " lk ++ ")").data.count c = 0 := by
  simp only [String.data_append, List.count_append]
  rw [hp1, hp2, count_joinSep c " OR " hsep]
  have hsum : (lk.map fun s => s.data.count c).sum = 0 := by
    apply List.sum_eq_zero
    intro x hx
    rcases List.mem_map.mp hx with ⟨s, hs, hxeq⟩
    rw [← hxeq]
    exact helem s hs
  rw [hsum]

theorem kindCond_count_zero (ks : List Int) {c : Char} (hc : c ∉ '-' :: decChars)
    (hpre : ("kind IN (" : String).data.count c = 0)
    (hsep : ("," : String).data.count c = 0) (hsuf : (")" : String).data.count c = 0) :
    ("kind IN (" ++ joinSep "," (ks.map itoa) ++ ")").data.count c = 0 := by
  simp only [String.data_append, List.count_append]
  rw [hpre, hsuf, count_joinSep c "," hsep]
  have hsum : (((ks.map itoa)).map fun s => s.data.count c).sum = 0 := by
    apply List.sum_eq_zero
    intro x hx
    rcases List.mem_map.mp hx with ⟨s, hs, hxeq⟩
    rcases List.mem_map.mp hs with ⟨i, hi, hieq⟩
    rw [← hxeq, ← hieq]
    exact count_eq_zero_of_subset (fun ch hch => itoa_mem i ch hch) hc
  rw [hsum]

theorem tagCond_count (tq : List String) {c : Char}
    (hpre : ("tagvalues && ARRAY[" : String).data.count c = 0)
    (hsep : ("," : String).data.count c = 0) (hsuf : ("]" : String).data.count c = 0) :
    (tagCond tq).data.count c = tq.length * (("?" : String).data.count c) := by
  unfold tagCond
  simp only [String.data_append, List.count_append]
  rw [hpre, hsuf, count_joinSep c "," hsep]
  rw [List.map_const' tq "?", List.map_replicate, List.sum_replicate, smul_eq_mul]
  simp only [Nat.zero_add, Nat.add_zero] <;> rfl

theorem sinceParamList_length (f : Filter) :
    (sinceParamList f).length = (sinceCondList f).length := by
  unfold sinceParamList sinceCondList
  cases f.Since <;> rfl

theorem untilParamList_length (f : Filter) :
    (untilParamList f).length = (untilCondList f).length := by
  unfold untilParamList untilCondList
  cases f.Until <;> rfl

theorem rawConds_count_sum {b : PostgresBackend} {f : Filter}
    {idC authC kindC : Option String} (tq : List String)
    (h1 : idsStep b f = some idC) (h2 : authorsStep b f = some authC)
    (h3 : kindsStep b f = some kindC) (c : Char)
    (hc1 : c ∉ hexChars) (hc2 : c ∉ '-' :: decChars)
    (hl1 : ("(" : String).data.count c = 0) (hl2 : (")" : String).data.count c = 0)
    (hl3 : (" OR " : String).data.count c = 0)
    (hl4 : ("id LIKE '" : String).data.count c = 0)
    (hl5 : ("pubkey LIKE '" : String).data.count c = 0)
    (hl6 : ("%'" : String).data.count c = 0)
    (hl7 : ("kind IN (" : String).data.count c = 0)
    (hl8 : ("," : String).data.count c = 0)
    (hl9 : ("tagvalues && ARRAY[" : String).data.count c = 0)
    (hl10 : ("]" : String).data.count c = 0) :
    ((rawConds idC authC kindC f tq).map fun s => s.data.count c).sum
      = tq.length * (("?" : String).data.count c)
        + (sinceCondList f).length * (("created_at >= ?" : String).data.count c)
        + (untilCondList f).length * (("created_at <= ?" : String).data.count c) := by
  unfold rawConds
  simp only [List.map_append, List.sum_append]
  have hid : (idC.toList.map fun s => s.data.count c).sum = 0 := by
    rcases idsStep_inv h1 with h0 | ⟨l, _, _, hsh⟩
    · rw [h0]; rfl
    · rw [hsh]
      simp only [Option.toList_some, List.map_cons, List.map_nil, List.sum_cons, List.sum_nil]
      rw [group_count_zero (likeids l) hl1 hl2 hl3
        (fun s hs => likeids_elem_count hs hc1 hl4 hl6)]
      omega
  have hauth : (authC.toList.map fun s => s.data.count c).sum = 0 := by
    rcases authorsStep_inv h2 with h0 | ⟨l, _, _, hsh⟩
    · rw [h0]; rfl
    · rw [hsh]
      simp only [Option.toList_some, List.map_cons, List.map_nil, List.sum_cons, List.sum_nil]
      rw [group_count_zero (likekeys l) hl1 hl2 hl3
        (fun s hs => likekeys_elem_count hs hc1 hl5 hl6)]
      omega
  have hkind : (kindC.toList.map fun s => s.data.count c).sum = 0 := by
    rcases kindsStep_inv h3 with h0 | ⟨l, _, _, hsh⟩
    · rw [h0]; rfl
    · rw [hsh]
      simp only [Option.toList_some, List.map_cons, List.map_nil, List.sum_cons, List.sum_nil]
      rw [kindCond_count_zero l hc2 hl7 hl8 hl2]
      omega
  have htag : ((tagCondList tq).map fun s => s.data.count c).sum
      = tq.length * (("?" : String).data.count c) := by
    unfold tagCondList
    split
    · simp only [List.map_cons, List.map_nil, List.sum_cons, List.sum_nil]
      rw [tagCond_count tq hl9 hl8 hl10]
      simp only [Nat.add_zero] <;> rfl
    · rename_i hlen
      have : tq.length = 0 := by omega
      rw [this]
      simp
  have hsince : ((sinceCondList f).map fun s => s.data.count c).sum
      = (sinceCondList f).length * (("created_at >= ?" : String).data.count c) := by
    unfold sinceCondList
    cases f.Since with
    | none => simp
    | some s =>
      simp only [List.map_cons, List.map_nil, List.sum_cons, List.sum_nil,
        List.length_cons, List.length_nil, Nat.add_zero, Nat.zero_add, Nat.one_mul] <;> rfl
  have huntil : ((untilCondList f).map fun s => s.data.count c).sum
      = (untilCondList f).length * (("created_at <= ?" : String).data.count c) := by
    unfold untilCondList
    cases f.Until with
    | none => simp
    | some u =>
      simp only [List.map_cons, List.map_nil, List.sum_cons, List.sum_nil,
        List.length_cons, List.length_nil, Nat.add_zero, Nat.zero_add, Nat.one_mul] <;> rfl
  rw [hid, hauth, hkind, htag, hsince, huntil]
  simp only [Nat.zero_add, Nat.add_zero] <;> rfl

theorem raw_len_zero_components {f : Filter} {idC authC kindC : Option String}
    {tq : List String} (h : (rawConds idC authC kindC f tq).length = 0) :
    tq = [] ∧ f.Since = none ∧ f.Until = none := by
  unfold rawConds at h
  simp only [List.length_append] at h
  refine ⟨?_, ?_, ?_⟩
  · have : (tagCondList tq).length = 0 := by omega
    unfold tagCondList at this
    split at this
    · simp at this
    · rename_i hlen
      have : tq.length = 0 := by omega
      exact List.length_eq_zero.mp this
  · have hs : (sinceCondList f).length = 0 := by omega
    unfold sinceCondList at hs
    cases hS : f.Since with
    | none => rfl
    | some s => rw [hS] at hs; simp at hs
  · have hu : (untilCondList f).length = 0 := by omega
    unfold untilCondList at hu
    cases hU : f.Until with
    | none => rfl
    | some u => rw [hU] at hu; simp at hu

/-- C10: every compilation that returns a non-empty query text satisfies:
the number of `$` placeholders in the rebound text equals the length of the
parameter list, the parameter list is non-empty, its last element is the
resolved limit, and it consists of exactly the flattened tag values, since,
until, and the resolved limit — ids, authors and kinds never contribute a
bound parameter. -/
theorem placeholder_param_invariant (b : PostgresBackend) (f : Filter) (dc : Bool)
    (q : String) (ps : List Param)
    (hok : queryEventsSql b (some f) dc = Except.ok (q, ps)) (hne : q ≠ "") :
    q.data.count '$' = ps.length ∧ ps ≠ [] ∧
    ps.getLast? = some (Param.pint (resolveLimit b f)) ∧
    ∃ tq, flattenTags b.QueryTagsLimit f.Tags [] = some tq ∧ ps = fullParams b f tq := by
  cases hb : buildQuery b f with
  | none =>
    have hsg := (@queryEventsSql_signal b f dc hb).symm.trans hok
    injection hsg with hsg
    injection hsg with hq1 hp1
    exact absurd hq1.symm hne
  | some cp =>
    rcases cp with ⟨conds, ps0⟩
    have heq := (@queryEventsSql_compiled b f conds ps0 dc hb).symm.trans hok
    injection heq with heq
    injection heq with hq1 hp1
    rcases buildQuery_some_elim hb with ⟨idC, authC, kindC, tq, h1, h2, h3, h4, hconds, hfull⟩
    refine ⟨?_, ?_, ?_, tq, h4, by rw [← hp1, hfull]⟩
    · rw [← hq1]
      have hdata : (rebind ((if dc then countSelect else rowsSelect)
          ++ joinSep " AND " conds ++ orderLimitTail)).data
          = rebindChars ((if dc then countSelect else rowsSelect)
            ++ joinSep " AND " conds ++ orderLimitTail).data 1 := rfl
      rw [hdata, rebindChars_count_dollar]
      simp only [String.data_append, List.count_append]
      have hsel0 : ((if dc then countSelect else rowsSelect) : String).data.count '?' = 0 := by
        cases dc <;> decide
      have hsel1 : ((if dc then countSelect else rowsSelect) : String).data.count '$' = 0 := by
        cases dc <;> decide
      have hta0 : (orderLimitTail : String).data.count '?' = 1 := by decide
      have hta1 : (orderLimitTail : String).data.count '$' = 0 := by decide
      have hj0 := count_joinSep '?' " AND " (by decide) conds
      have hj1 := count_joinSep '$' " AND " (by decide) conds
      rw [hsel0, hsel1, hta0, hta1, hj0, hj1]
      have hps_len : ps.length = tq.length + (sinceCondList f).length
          + (untilCondList f).length + 1 := by
        rw [← hp1, hfull]
        unfold fullParams
        simp only [List.length_append, List.length_map, List.length_cons, List.length_nil]
        rw [sinceParamList_length, untilParamList_length]
      rcases Decidable.em ((rawConds idC authC kindC f tq).length = 0) with hz | hz
      · rw [hconds, if_pos hz]
        rcases raw_len_zero_components hz with ⟨htq0, hS0, hU0⟩
        rw [hps_len, htq0]
        simp only [sinceCondList, untilCondList, hS0, hU0]
        decide
      · rw [hconds, if_neg hz]
        rw [rawConds_count_sum tq h1 h2 h3 '?' (by decide) (by decide) (by decide) (by decide)
          (by decide) (by decide) (by decide) (by decide) (by decide) (by decide) (by decide)
          (by decide)]
        rw [rawConds_count_sum tq h1 h2 h3 '$' (by decide) (by decide) (by decide) (by decide)
          (by decide) (by decide) (by decide) (by decide) (by decide) (by decide) (by decide)
          (by decide)]
        rw [hps_len]
        have e1 : ("?" : String).data.count '?' = 1 := by decide
        have e2 : ("?" : String).data.count '$' = 0 := by decide
        have e3 : ("created_at >= ?" : String).data.count '?' = 1 := by decide
        have e4 : ("created_at >= ?" : String).data.count '$' = 0 := by decide
        have e5 : ("created_at <= ?" : String).data.count '?' = 1 := by decide
        have e6 : ("created_at <= ?" : String).data.count '$' = 0 := by decide
        rw [e1, e2, e3, e4, e5, e6]
        omega
    · rw [← hp1, hfull]
      exact fullParams_ne_nil b f tq
    · rw [← hp1, hfull]
      exact fullParams_getLast b f tq

/-- Witness for C10 at the since/until filter: placeholder count matches the
parameter count, and the last parameter is the resolved limit. -/
theorem placeholder_param_invariant_witness :
    (compiledQuery bW fWsince false).data.count '$' = (compiledParams bW fWsince false).length ∧
    (compiledParams bW fWsince false).getLast? = some (Param.pint (resolveLimit bW fWsince)) :=
  ⟨(placeholder_param_invariant bW fWsince false (compiledQuery bW fWsince false)
      (compiledParams bW fWsince false) rfl (by decide)).1,
   (placeholder_param_invariant bW fWsince false (compiledQuery bW fWsince false)
      (compiledParams bW fWsince false) rfl (by decide)).2.2.1⟩

/-! ### C1: the empty-result signal and the storage round-trip -/

/-- C1 (amended): for every filter in which ids, authors or kinds is present
but empty or over its configured limit, or some tag's value list is empty,
or the flattened tag values exceed maxTagValues, `queryEventsSql` returns
the empty-result signal — empty query text, empty parameter list and no
error — so compilation surfaces no error; however `QueryEvents` and
`CountEvents` still perform one storage round-trip, passing the empty query
text to the driver, and the caller sees an empty sequence / count 0 only
when the driver answers the empty query with no rows. -/
theorem empty_dimension_short_circuit (b : PostgresBackend) (f : Filter) (dc : Bool)
    (hL : 0 ≤ b.QueryTagsLimit) (h : dimensionShortCircuits b f = true) :
    queryEventsSql b (some f) dc = Except.ok ("", []) ∧
    hitsStorage b (some f) false = true ∧ hitsStorage b (some f) true = true ∧
    (∀ db, db "" [] = QueryResult.rows [] → QueryEvents b db (some f) = Except.ok []) ∧
    (∀ dbr, dbr "" [] = RowScan.noRows → CountEvents b dbr (some f) = Except.ok 0) := by
  have hsig : ∀ dc', queryEventsSql b (some f) dc' = Except.ok ("", []) := by
    intro dc'
    unfold dimensionShortCircuits at h
    simp only [Bool.or_eq_true, List.any_eq_true, decide_eq_true_eq] at h
    rcases h with ((((h | h) | h) | h) | h)
    · cases hI : f.IDs with
      | none => rw [hI] at h; simp at h
      | some l =>
        rw [hI] at h
        simp only [List.isEmpty_iff, decide_eq_true_eq, Bool.or_eq_true] at h
        rcases h with h | h
        · exact signal_of_idsStep_none (idsStep_none_nil_like hI (by rw [h]; rfl))
        · exact signal_of_idsStep_none (idsStep_none_over hI h)
    · cases hA : f.Authors with
      | none => rw [hA] at h; simp at h
      | some l =>
        rw [hA] at h
        simp only [List.isEmpty_iff, decide_eq_true_eq, Bool.or_eq_true] at h
        rcases h with h | h
        · exact signal_of_authorsStep_none (authorsStep_none_nil_like hA (by rw [h]; rfl))
        · exact signal_of_authorsStep_none (authorsStep_none_over hA h)
    · cases hK : f.Kinds with
      | none => rw [hK] at h; simp at h
      | some l =>
        rw [hK] at h
        simp only [List.isEmpty_iff, decide_eq_true_eq, Bool.or_eq_true] at h
        rcases h with h | h
        · exact signal_of_kindsStep_none (by rw [h] at hK; exact kindsStep_none_nil hK)
        · exact signal_of_kindsStep_none (kindsStep_none_over hK h)
    · rcases h with ⟨p, hp, hpe⟩
      apply signal_of_flatten_none
      apply flattenTags_none_of_mem_nil
      exact ⟨p, hp, by simpa using hpe⟩
    · apply signal_of_flatten_none
      apply flattenTags_none_of_overflow
      · simpa using hL
      · simpa using h
  refine ⟨hsig dc, ?_, ?_, ?_, ?_⟩
  · unfold hitsStorage
    rw [hsig false]
  · unfold hitsStorage
    rw [hsig true]
  · intro db hdb
    have hstep : QueryEvents b db (some f)
        = (match db "" [] with
           | QueryResult.fail e => Except.error (wrapQueryErr "" e)
           | QueryResult.rows rs => Except.ok (scanRows rs)) := by
      unfold QueryEvents
      rw [hsig false]
    rw [hstep, hdb]
    rfl
  · intro dbr hdbr
    have hstep : CountEvents b dbr (some f)
        = (match dbr "" [] with
           | RowScan.noRows => Except.ok 0
           | RowScan.fail e => Except.error (wrapQueryErr "" e)
           | RowScan.value c => Except.ok c) := by
      unfold CountEvents
      rw [hsig true]
    rw [hstep, hdbr]

/-- C1 counterexample: the claim "storage is never queried (zero storage
round-trips)" is false — for ids present-but-empty the executors still reach
their storage call — and for the tags dimension present-but-empty (an empty
tag map) the result is not the empty result at all: a full query runs and
the storage's rows are returned. -/
theorem empty_dimension_cex :
    (fC1a.IDs = some [] ∧ hitsStorage bW (some fC1a) false = true ∧
      hitsStorage bW (some fC1a) true = true) ∧
    (fC1b.Tags = [] ∧ QueryEvents bW dbRowsW (some fC1b) = Except.ok [evW]) :=
  ⟨⟨rfl, rfl, rfl⟩, ⟨rfl, rfl⟩⟩

/-- Witness for C1 (amended) at ids present-but-empty: the compilation
signal, the storage round-trip, and the empty results under a driver that
answers the empty query with no rows. -/
theorem empty_dimension_short_circuit_witness :
    queryEventsSql bW (some fC1a) false = Except.ok ("", []) ∧
    hitsStorage bW (some fC1a) false = true := by
  have h := empty_dimension_short_circuit bW fC1a false (by decide) (by decide)
  exact ⟨h.1, h.2.1⟩

/-! ### C2: determinism and the tag iteration order -/

theorem flattenTags_none_iff {L : Int} (hL : 0 ≤ L) (tags : List (String × List String)) :
    flattenTags L tags [] = none ↔
      ((∃ p ∈ tags, p.2 = []) ∨ ((flatValues tags).length : Int) > L) := by
  constructor
  · intro h
    by_contra hc
    push_neg at hc
    rcases hc with ⟨h1, h2⟩
    rw [flattenTags_some_of_ok L tags [] h1 (by simpa using h2)] at h
    exact absurd h (by simp)
  · rintro (h | h)
    · exact flattenTags_none_of_mem_nil _ _ _ h
    · exact flattenTags_none_of_overflow _ _ _ (by simpa using hL) (by simpa using h)

theorem tagCondList_congr {tq₁ tq₂ : List String} (h : tq₁.length = tq₂.length) :
    tagCondList tq₁ = tagCondList tq₂ := by
  unfold tagCondList tagCond
  rw [List.map_const' tq₁ "?", List.map_const' tq₂ "?", h]

/-- C2 (amended): compilation is a pure function of the filter together
with its tag iteration order, and the compiled query text of either shape
does not depend on that order at all — for any two iteration orders of the
same tag map (permutations of each other) the texts agree; only the order
of the bound parameters follows the map's iteration order, which Go leaves
unspecified. -/
theorem compile_text_tag_order_independent (b : PostgresBackend) (f : Filter)
    (t₁ t₂ : List (String × List String)) (dc : Bool) (hL : 0 ≤ b.QueryTagsLimit)
    (hperm : t₁.Perm t₂) :
    (queryEventsSql b (some { f with Tags := t₁ }) dc).map Prod.fst
      = (queryEventsSql b (some { f with Tags := t₂ }) dc).map Prod.fst := by
  rcases f with ⟨fI, fA, fK, fT, fS, fU, fLim⟩
  show (queryEventsSql b (some ⟨fI, fA, fK, t₁, fS, fU, fLim⟩) dc).map Prod.fst
      = (queryEventsSql b (some ⟨fI, fA, fK, t₂, fS, fU, fLim⟩) dc).map Prod.fst
  have hlen : (flatValues t₁).length = (flatValues t₂).length := by
    rw [flatValues_length, flatValues_length]
    exact (hperm.map fun p => p.2.length).sum_eq
  cases h1 : idsStep b ⟨fI, fA, fK, t₁, fS, fU, fLim⟩ with
  | none =>
    have h1b : idsStep b ⟨fI, fA, fK, t₂, fS, fU, fLim⟩ = none := h1
    rw [queryEventsSql_signal (buildQuery_none_of_step (Or.inl h1)),
        queryEventsSql_signal (buildQuery_none_of_step (Or.inl h1b))]
  | some idC =>
  have h1b : idsStep b ⟨fI, fA, fK, t₂, fS, fU, fLim⟩ = some idC := h1
  cases h2 : authorsStep b ⟨fI, fA, fK, t₁, fS, fU, fLim⟩ with
  | none =>
    have h2b : authorsStep b ⟨fI, fA, fK, t₂, fS, fU, fLim⟩ = none := h2
    rw [queryEventsSql_signal (buildQuery_none_of_step (Or.inr (Or.inl h2))),
        queryEventsSql_signal (buildQuery_none_of_step (Or.inr (Or.inl h2b)))]
  | some authC =>
  have h2b : authorsStep b ⟨fI, fA, fK, t₂, fS, fU, fLim⟩ = some authC := h2
  cases h3 : kindsStep b ⟨fI, fA, fK, t₁, fS, fU, fLim⟩ with
  | none =>
    have h3b : kindsStep b ⟨fI, fA, fK, t₂, fS, fU, fLim⟩ = none := h3
    rw [queryEventsSql_signal (buildQuery_none_of_step (Or.inr (Or.inr (Or.inl h3)))),
        queryEventsSql_signal (buildQuery_none_of_step (Or.inr (Or.inr (Or.inl h3b))))]
  | some kindC =>
  have h3b : kindsStep b ⟨fI, fA, fK, t₂, fS, fU, fLim⟩ = some kindC := h3
  cases ht1 : flattenTags b.QueryTagsLimit t₁ [] with
  | none =>
    have ht2 : flattenTags b.QueryTagsLimit t₂ [] = none := by
      apply (flattenTags_none_iff hL t₂).mpr
      rcases (flattenTags_none_iff hL t₁).mp ht1 with hcase | hcase
      · rcases hcase with ⟨p, hp, hpe⟩
        exact Or.inl ⟨p, hperm.mem_iff.mp hp, hpe⟩
      · refine Or.inr ?_
        rw [← hlen] at *
        omega
    rw [queryEventsSql_signal (buildQuery_none_of_step (Or.inr (Or.inr (Or.inr ht1)))),
        queryEventsSql_signal (buildQuery_none_of_step (Or.inr (Or.inr (Or.inr ht2))))]
  | some tq₁ =>
  have htq1 : tq₁ = flatValues t₁ := by simpa using flattenTags_some_eq _ _ _ _ ht1
  subst htq1
  have ht2 : flattenTags b.QueryTagsLimit t₂ [] = some (flatValues t₂) := by
    cases ht2x : flattenTags b.QueryTagsLimit t₂ [] with
    | none =>
      exfalso
      have : flattenTags b.QueryTagsLimit t₁ [] = none := by
        apply (flattenTags_none_iff hL t₁).mpr
        rcases (flattenTags_none_iff hL t₂).mp ht2x with hcase | hcase
        · rcases hcase with ⟨p, hp, hpe⟩
          exact Or.inl ⟨p, hperm.mem_iff.mpr hp, hpe⟩
        · refine Or.inr ?_
          rw [hlen] at *
          omega
      rw [this] at ht1
      exact absurd ht1 (by simp)
    | some r =>
      have := flattenTags_some_eq _ _ _ _ ht2x
      simp at this
      rw [this]
  have hraw : rawConds idC authC kindC ⟨fI, fA, fK, t₁, fS, fU, fLim⟩ (flatValues t₁)
      = rawConds idC authC kindC ⟨fI, fA, fK, t₂, fS, fU, fLim⟩ (flatValues t₂) := by
    unfold rawConds
    rw [tagCondList_congr hlen]
    exact rfl
  rw [@queryEventsSql_compiled b ⟨fI, fA, fK, t₁, fS, fU, fLim⟩ _ _ dc
      (buildQuery_eq h1 h2 h3 ht1),
    @queryEventsSql_compiled b ⟨fI, fA, fK, t₂, fS, fU, fLim⟩ _ _ dc
      (buildQuery_eq h1b h2b h3b ht2)]
  rw [hraw]
  rfl

/-- C2 counterexample: the same two-entry tag map iterated in its two
possible orders compiles to different results — the ordered parameter lists
differ — so compilation is not independent of the map iteration order. -/
theorem compile_param_order_cex :
    fC2a.Tags.Perm fC2b.Tags ∧
    queryEventsSql bW (some fC2a) false ≠ queryEventsSql bW (some fC2b) false :=
  ⟨by decide, by decide⟩

/-- Witness for C2 (amended): the two iteration orders of the same tag map
compile to the identical query text. -/
theorem compile_text_tag_order_independent_witness :
    (queryEventsSql bW (some { fC2a with Tags := fC2a.Tags }) false).map Prod.fst
      = (queryEventsSql bW (some { fC2a with Tags := fC2b.Tags }) false).map Prod.fst :=
  compile_text_tag_order_independent bW fC2a fC2a.Tags fC2b.Tags false (by decide) (by decide)

end Relayer
